import Mathlib

/-
Verification of the exported-zpool report parser of this repository.

The embedding covers, from src/unnamed/part_000: the ExportedZpool record,
the Import argument construction, the inner block scanner parseLines and the
outer driver loop of ListExportedZpools; and, from src/zpool.go, the
superseded variant of parseLines.

Two helpers used by the scanner are not under src/ and are modelled from the
spec where noted: the conditional string setter (setString) and the
group-kind classifier (IsVdevGroup).  The scanner itself is parameterised
over the classifier and over the device-name resolver, which the spec
treats as external collaborators; concrete instances are only used in
witnesses and counterexamples.

Go slice indexing out of range is a runtime panic; every such access in the
source is modelled as an Option failure (none).
-/

set_option maxHeartbeats 1000000

/-- A tokenized output line of the Command Runner: whitespace-split tokens.
A blank source line is an empty token list. -/
abbrev Line := List String

/-- A single leaf storage unit: name and health token. -/
structure Vdev where
  Name : String
  Health : String
  deriving DecidableEq

/-- A device group: group descriptor plus its ordered member devices. -/
structure VdevGroup where
  Group : Vdev
  Devices : List Vdev
  deriving DecidableEq

/-- An importable pool record (src/unnamed/part_000, lines 137-144). -/
structure ExportedZpool where
  Name : String
  Id : String
  State : String
  Status : String
  Action : String
  Vdevs : List VdevGroup
  deriving DecidableEq

/-- Modelled from the spec: the string field setter (a helper of this
repository that is not under src/) assigns a value only if the field is not
already set, with first-write-wins semantics.  Go's zero value for a string
field is the empty string, so an unset field is the empty string. -/
def setString (field v : String) : String :=
  if field = "" then v else field

/-- Modelled from the spec: IsVdevGroup (a helper of this repository that is
not under src/) tests a token for membership in the fixed set of
redundancy-scheme names (mirror and the raidz variants).  The theorems below
quantify over the classifier; this concrete instance is used in witnesses
and counterexamples. -/
def IsVdevGroup (t : String) : Bool :=
  t == "mirror" || t == "raidz" || t == "raidz1" || t == "raidz2" || t == "raidz3"

/-- Contiguous-sublist test: does sub occur at some position of l? -/
def infixOf (sub : List Char) : List Char → Bool
  | [] => sub.isPrefixOf []
  | c :: cs => sub.isPrefixOf (c :: cs) || infixOf sub cs

/-- Embedding of Go strings.Contains: substring test. -/
def goContains (s sub : String) : Bool :=
  infixOf sub.data s.data

/-- The first component of Go strings.Split(t, "-"): the prefix of t before
the first dash (t itself if there is no dash). -/
def dashPrefix (t : String) : String :=
  ⟨t.data.takeWhile (fun c => c != '-')⟩

/-- Argument construction of ExportedZpool.Import (src/unnamed/part_000,
lines 146-154): flags start as "-N", get an "f" suffix when tryForce, get a
"D" suffix when the state contains "DESTROYED", and the final argument list
is ["import", flags, Id]. -/
def ExportedZpool.importArgs (ez : ExportedZpool) (tryForce : Bool) : List String :=
  let f1 := "-N"
  let f2 := if tryForce then f1 ++ "f" else f1
  let f3 := if goContains ez.State "DESTROYED" then f2 ++ "D" else f2
  ["import", f3, ez.Id]

/-- The import action (src/unnamed/part_000, lines 146-157): one Command
Runner invocation with the built argument list, whose error is returned
verbatim. -/
def ExportedZpool.Import {ε : Type} (run : List String → Except ε (List Line))
    (ez : ExportedZpool) (tryForce : Bool) : Except ε Unit :=
  match run (ez.importArgs tryForce) with
  | Except.error e => Except.error e
  | Except.ok _ => Except.ok ()

/-- State of the inner block scanner of src/unnamed/part_000.  In the source,
curVdevGroup always points at the most recently appended element of Vdevs
(it is set exactly when a group is appended), so the group sequence is
modelled as the earlier (closed) groups plus the optional current group;
the concatenation is materialised on return. -/
structure PState where
  ez : ExportedZpool
  actionFound : Bool
  configFound : Bool
  closed : List VdevGroup
  cur : Option VdevGroup

/-- Result of one loop iteration: continue with a new state, stop at a
block-start marker, or fail on out-of-range token access (Go panic). -/
inductive StepR where
  | next (s : PState)
  | stop
  | fail

/-- One iteration of the line loop of ExportedZpool.parseLines
(src/unnamed/part_000, lines 166-221), with the switch cases tested in
source order. -/
def step (g : String → Bool) (r : String → String) (s : PState) (l : Line) : StepR :=
  match l with
  | [] => StepR.next s
  | t0 :: ts =>
    if t0 = "pool:" then StepR.stop
    else if t0 = "id:" then
      match ts with
      | [] => StepR.fail
      | v :: _ => StepR.next { s with ez := { s.ez with Id := setString s.ez.Id v } }
    else if t0 = "state:" then
      StepR.next { s with ez := { s.ez with State := setString s.ez.State (String.intercalate " " ts) } }
    else if t0 = "status:" then
      StepR.next { s with ez := { s.ez with Status := setString s.ez.Status (String.intercalate " " ts) } }
    else if t0 = "action:" then
      StepR.next { s with
        ez := { s.ez with Action := setString s.ez.Action (String.intercalate " " ts) },
        actionFound := true }
    else if t0 = s.ez.Name then StepR.next s
    else if t0 = "config:" then StepR.next { s with configFound := true }
    else if s.actionFound && !s.configFound then
      StepR.next { s with
        ez := { s.ez with Action := s.ez.Action ++ " " ++ String.intercalate " " (t0 :: ts) },
        actionFound := false }
    else if g (dashPrefix t0) then
      match ts with
      | [] => StepR.fail
      | h :: _ => StepR.next { s with
          closed := s.closed ++ s.cur.toList,
          cur := some ⟨⟨r t0, h⟩, []⟩ }
    else
      match ts with
      | [] => StepR.fail
      | h :: _ =>
        match s.cur with
        | some cg => StepR.next { s with cur := some { cg with Devices := cg.Devices ++ [⟨r t0, h⟩] } }
        | none => StepR.next { s with cur := some ⟨⟨"fileordisk", ""⟩, [⟨r t0, h⟩]⟩ }

/-- Materialise the record at scanner exit: the groups are the initial ones,
the closed ones, and the current one if open. -/
def finishVdevs (s : PState) : ExportedZpool :=
  { s.ez with Vdevs := s.ez.Vdevs ++ s.closed ++ s.cur.toList }

/-- The loop of ExportedZpool.parseLines (src/unnamed/part_000, lines
159-223).  loc is the running line counter; a "pool:" line returns the count
excluding the marker line itself. -/
def scan (g : String → Bool) (r : String → String) :
    PState → List Line → Nat → Option (ExportedZpool × Nat)
  | s, [], loc => some (finishVdevs s, loc)
  | s, l :: rest, loc =>
    match step g r s l with
    | StepR.fail => none
    | StepR.stop => some (finishVdevs s, loc)
    | StepR.next s' => scan g r s' rest (loc + 1)

/-- A fresh record as created by the driver loop: the name comes from the
block-start marker line, every other field is the Go zero value. -/
def ExportedZpool.fresh (nm : String) : ExportedZpool :=
  ⟨nm, "", "", "", "", []⟩

/-- ExportedZpool.parseLines of src/unnamed/part_000: scan the lines from a
fresh scanner state (no open group, continuation disarmed, counter zero). -/
def parseLines (g : String → Bool) (r : String → String)
    (ez : ExportedZpool) (lines : List Line) : Option (ExportedZpool × Nat) :=
  scan g r ⟨ez, false, false, [], none⟩ lines 0

/-- The driver loop of ListExportedZpools (src/unnamed/part_000, lines
233-241 and 248-256): scan for block-start markers, delegate to parseLines,
and skip the consumed lines.  The source indexes out[i][0] and out[i][1]
unconditionally, so a blank line, or a marker line without a pool name,
panics (none).  The fuel argument (instantiated with the line count, which
bounds the number of iterations) makes the recursion structural. -/
def listDriver (g : String → Bool) (r : String → String) :
    Nat → List Line → Option (List ExportedZpool)
  | _, [] => some []
  | 0, _ :: _ => none
  | fuel + 1, l :: rest =>
    match l with
    | [] => none
    | t0 :: ts =>
      if t0 = "pool:" then
        match ts with
        | [] => none
        | nm :: _ =>
          match parseLines g r (ExportedZpool.fresh nm) rest with
          | none => none
          | some (z, k) =>
            match listDriver g r fuel (rest.drop k) with
            | none => none
            | some ps => some (z :: ps)
      else listDriver g r fuel rest

/-- ListExportedZpools of src/unnamed/part_000 (lines 226-258): two Command
Runner invocations, "import" then "import -D"; either error is returned
verbatim, otherwise both outputs are parsed and the record lists
concatenated in that order.  none models a Go panic while parsing. -/
def ListExportedZpools {ε : Type} (g : String → Bool) (r : String → String)
    (run : List String → Except ε (List Line)) : Option (Except ε (List ExportedZpool)) :=
  match run ["import"] with
  | Except.error e => some (Except.error e)
  | Except.ok out1 =>
    match listDriver g r out1.length out1 with
    | none => none
    | some p1 =>
      match run ["import", "-D"] with
      | Except.error e => some (Except.error e)
      | Except.ok out2 =>
        match listDriver g r out2.length out2 with
        | none => none
        | some p2 => some (Except.ok (p1 ++ p2))

namespace Legacy

/-- Scanner state of the superseded parseLines variant (src/zpool.go).
There, Vdevs is grown by appending *curVdevGroup by value, so later device
appends through the local pointer are invisible in ez.Vdevs: the record's
group list and the local current group are separate pieces of state. -/
structure LState where
  ez : ExportedZpool
  actionFound : Bool
  cur : Option VdevGroup

/-- Step result for the superseded variant. -/
inductive LStepR where
  | next (s : LState)
  | stop
  | fail

/-- One iteration of the line loop of the superseded parseLines
(src/zpool.go, lines 157-202): no "config:" case, no device-name resolution,
the freshly created group is appended to Vdevs by value, devices are
appended only to the local copy, and a bare device line with no open group
is skipped entirely. -/
def step (g : String → Bool) (s : LState) (l : Line) : LStepR :=
  match l with
  | [] => LStepR.next s
  | t0 :: ts =>
    if t0 = "pool:" then LStepR.stop
    else if t0 = "id:" then
      match ts with
      | [] => LStepR.fail
      | v :: _ => LStepR.next { s with ez := { s.ez with Id := setString s.ez.Id v } }
    else if t0 = "state:" then
      LStepR.next { s with ez := { s.ez with State := setString s.ez.State (String.intercalate " " ts) } }
    else if t0 = "status:" then
      LStepR.next { s with ez := { s.ez with Status := setString s.ez.Status (String.intercalate " " ts) } }
    else if t0 = "action:" then
      LStepR.next { s with
        ez := { s.ez with Action := setString s.ez.Action (String.intercalate " " ts) },
        actionFound := true }
    else if t0 = s.ez.Name then LStepR.next s
    else if s.actionFound then
      LStepR.next { s with
        ez := { s.ez with Action := s.ez.Action ++ " " ++ String.intercalate " " (t0 :: ts) },
        actionFound := false }
    else if g (dashPrefix t0) then
      match ts with
      | [] => LStepR.fail
      | h :: _ => LStepR.next { s with
          ez := { s.ez with Vdevs := s.ez.Vdevs ++ [⟨⟨t0, h⟩, []⟩] },
          cur := some ⟨⟨t0, h⟩, []⟩ }
    else
      match s.cur with
      | some cg =>
        match ts with
        | [] => LStepR.fail
        | h :: _ => LStepR.next { s with cur := some { cg with Devices := cg.Devices ++ [⟨t0, h⟩] } }
      | none => LStepR.next s

/-- The loop of the superseded parseLines (src/zpool.go, lines 151-204). -/
def scan (g : String → Bool) :
    LState → List Line → Nat → Option (ExportedZpool × Nat)
  | s, [], loc => some (s.ez, loc)
  | s, l :: rest, loc =>
    match step g s l with
    | LStepR.fail => none
    | LStepR.stop => some (s.ez, loc)
    | LStepR.next s' => scan g s' rest (loc + 1)

/-- The superseded parseLines of src/zpool.go. -/
def parseLines (g : String → Bool)
    (ez : ExportedZpool) (lines : List Line) : Option (ExportedZpool × Nat) :=
  scan g ⟨ez, false, none⟩ lines 0

end Legacy

/-- A token that is none of the scanner's recognized first-token keywords. -/
abbrev NotKey (t : String) : Prop :=
  t ≠ "pool:" ∧ t ≠ "id:" ∧ t ≠ "state:" ∧ t ≠ "status:" ∧ t ≠ "action:" ∧ t ≠ "config:"

/-- First token of a line the scanner classifies as a bare device line for a
pool named nm: no keyword, not the pool-name echo, dash-prefix not a
recognized group kind. -/
abbrev DevTok (g : String → Bool) (nm t : String) : Prop :=
  NotKey t ∧ t ≠ nm ∧ g (dashPrefix t) = false

/-- First token of a line the scanner classifies as a group-header line for a
pool named nm: no keyword, not the pool-name echo, dash-prefix a recognized
group kind. -/
abbrev GrpTok (g : String → Bool) (nm t : String) : Prop :=
  NotKey t ∧ t ≠ nm ∧ g (dashPrefix t) = true

/-- A structural line with its mandatory second token: first token, second
token (health), remaining ignored tokens. -/
abbrev Tok3 := String × String × List String

/-- The line carrying a token triple. -/
def tokLine (t : Tok3) : Line :=
  t.1 :: t.2.1 :: t.2.2

/-- The device built from a structural line: resolved name plus health. -/
def mkVdev (r : String → String) (t : Tok3) : Vdev :=
  ⟨r t.1, t.2.1⟩

/-- One group segment of a block: the group-header line followed by the
member device lines. -/
abbrev Seg := Tok3 × List Tok3

/-- The lines of a group segment. -/
def segLines (sg : Seg) : List Line :=
  tokLine sg.1 :: sg.2.map tokLine

/-- The lines of a sequence of group segments. -/
def segsLines : List Seg → List Line
  | [] => []
  | sg :: t => segLines sg ++ segsLines t

/-- The group a segment parses to: descriptor from the header line, devices
from the device lines, in input order. -/
def mkGroup (r : String → String) (sg : Seg) : VdevGroup :=
  ⟨mkVdev r sg.1, sg.2.map (mkVdev r)⟩

/-- A non-structural line the scanner absorbs without touching the
continuation flag, the config flag or the group state: blank, a state: or
status: header line, an id: header line with a value, or the pool-name
echo. -/
def preSafe (nm : String) (l : Line) : Bool :=
  match l with
  | [] => true
  | [t0] => t0 == "state:" || t0 == "status:" || t0 == nm
  | t0 :: _ :: _ => t0 == "id:" || t0 == "state:" || t0 == "status:" || t0 == nm

/-- A body with no block-start marker line. -/
abbrev PoolFree (body : List Line) : Prop :=
  ∀ l ∈ body, l.head? ≠ some "pool:"

/-- One pool block of a report: pool name, remaining marker-line tokens, and
the body lines following the marker line. -/
abbrev Block := String × List String × List Line

/-- The lines of a block: the "pool:" marker line followed by the body. -/
def blockLines (b : Block) : List Line :=
  ("pool:" :: b.1 :: b.2.1) :: b.2.2

/-- The lines of a sequence of back-to-back blocks. -/
def blocksLines : List Block → List Line
  | [] => []
  | b :: t => blockLines b ++ blocksLines t

/-- The record a single block parses to: the inner scanner run on the body
from a fresh record named by the marker line — a function of that block
alone. -/
def recOf (g : String → Bool) (r : String → String) (b : Block) : Option ExportedZpool :=
  (parseLines g r (ExportedZpool.fresh b.1) b.2.2).map Prod.fst

/-- The records of a sequence of blocks, one per block, in block order. -/
def recsOf (g : String → Bool) (r : String → String) : List Block → Option (List ExportedZpool)
  | [] => some []
  | b :: t =>
    match recOf g r b with
    | none => none
    | some z =>
      match recsOf g r t with
      | none => none
      | some zs => some (z :: zs)

section StepLemmas

variable (g : String → Bool) (r : String → String) (s : PState)

theorem step_nil : step g r s [] = StepR.next s := rfl

theorem step_pool (ts : List String) : step g r s ("pool:" :: ts) = StepR.stop := by
  simp [step]

theorem step_id (v : String) (ts : List String) :
    step g r s ("id:" :: v :: ts) =
      StepR.next { s with ez := { s.ez with Id := setString s.ez.Id v } } := by
  simp [step]

theorem step_id_lone : step g r s ["id:"] = StepR.fail := by
  simp [step]

theorem step_state (ts : List String) :
    step g r s ("state:" :: ts) =
      StepR.next { s with ez := { s.ez with State := setString s.ez.State (String.intercalate " " ts) } } := by
  simp [step]

theorem step_status (ts : List String) :
    step g r s ("status:" :: ts) =
      StepR.next { s with ez := { s.ez with Status := setString s.ez.Status (String.intercalate " " ts) } } := by
  simp [step]

theorem step_action (ts : List String) :
    step g r s ("action:" :: ts) =
      StepR.next { s with
        ez := { s.ez with Action := setString s.ez.Action (String.intercalate " " ts) },
        actionFound := true } := by
  simp [step]

theorem step_echo (t0 : String) (ts : List String)
    (h1 : t0 ≠ "pool:") (h2 : t0 ≠ "id:") (h3 : t0 ≠ "state:") (h4 : t0 ≠ "status:")
    (h5 : t0 ≠ "action:") (heq : t0 = s.ez.Name) :
    step g r s (t0 :: ts) = StepR.next s := by
  rw [heq] at h1 h2 h3 h4 h5
  simp [step, heq, h1, h2, h3, h4, h5]

theorem step_config (ts : List String) (hNm : s.ez.Name ≠ "config:") :
    step g r s ("config:" :: ts) = StepR.next { s with configFound := true } := by
  simp [step, Ne.symm hNm]

theorem step_cont (t0 : String) (ts : List String) (hk : NotKey t0) (hNm : t0 ≠ s.ez.Name)
    (haf : s.actionFound = true) (hcf : s.configFound = false) :
    step g r s (t0 :: ts) =
      StepR.next { s with
        ez := { s.ez with Action := s.ez.Action ++ " " ++ String.intercalate " " (t0 :: ts) },
        actionFound := false } := by
  simp [step, hk.1, hk.2.1, hk.2.2.1, hk.2.2.2.1, hk.2.2.2.2.1, hk.2.2.2.2.2, hNm, haf, hcf]

theorem step_grp (t0 h2 : String) (ts : List String) (hk : NotKey t0) (hNm : t0 ≠ s.ez.Name)
    (hguard : (s.actionFound && !s.configFound) = false) (hg : g (dashPrefix t0) = true) :
    step g r s (t0 :: h2 :: ts) =
      StepR.next { s with
        closed := s.closed ++ s.cur.toList,
        cur := some ⟨⟨r t0, h2⟩, []⟩ } := by
  simp [step, hk.1, hk.2.1, hk.2.2.1, hk.2.2.2.1, hk.2.2.2.2.1, hk.2.2.2.2.2, hNm, hguard, hg]

theorem step_struct_lone (t0 : String) (hk : NotKey t0) (hNm : t0 ≠ s.ez.Name)
    (hguard : (s.actionFound && !s.configFound) = false) :
    step g r s [t0] = StepR.fail := by
  by_cases hg : g (dashPrefix t0) = true
  · simp [step, hk.1, hk.2.1, hk.2.2.1, hk.2.2.2.1, hk.2.2.2.2.1, hk.2.2.2.2.2, hNm, hguard, hg]
  · simp [step, hk.1, hk.2.1, hk.2.2.1, hk.2.2.2.1, hk.2.2.2.2.1, hk.2.2.2.2.2, hNm, hguard, hg]

theorem step_dev_some (t0 h2 : String) (ts : List String) (cg : VdevGroup)
    (hk : NotKey t0) (hNm : t0 ≠ s.ez.Name) (hguard : (s.actionFound && !s.configFound) = false)
    (hg : g (dashPrefix t0) = false) (hcur : s.cur = some cg) :
    step g r s (t0 :: h2 :: ts) =
      StepR.next { s with cur := some { cg with Devices := cg.Devices ++ [⟨r t0, h2⟩] } } := by
  simp [step, hk.1, hk.2.1, hk.2.2.1, hk.2.2.2.1, hk.2.2.2.2.1, hk.2.2.2.2.2, hNm, hguard, hg,
    hcur]

theorem step_dev_none (t0 h2 : String) (ts : List String)
    (hk : NotKey t0) (hNm : t0 ≠ s.ez.Name) (hguard : (s.actionFound && !s.configFound) = false)
    (hg : g (dashPrefix t0) = false) (hcur : s.cur = none) :
    step g r s (t0 :: h2 :: ts) =
      StepR.next { s with cur := some ⟨⟨"fileordisk", ""⟩, [⟨r t0, h2⟩]⟩ } := by
  simp [step, hk.1, hk.2.1, hk.2.2.1, hk.2.2.2.1, hk.2.2.2.2.1, hk.2.2.2.2.2, hNm, hguard, hg,
    hcur]

end StepLemmas

section ScanLemmas

variable (g : String → Bool) (r : String → String)

theorem scan_next {s s' : PState} {l : Line} (rest : List Line) (loc : Nat)
    (hstep : step g r s l = StepR.next s') :
    scan g r s (l :: rest) loc = scan g r s' rest (loc + 1) := by
  simp only [scan, hstep]

theorem scan_stop {s : PState} {l : Line} (rest : List Line) (loc : Nat)
    (hstep : step g r s l = StepR.stop) :
    scan g r s (l :: rest) loc = some (finishVdevs s, loc) := by
  simp only [scan, hstep]

theorem scan_fail {s : PState} {l : Line} (rest : List Line) (loc : Nat)
    (hstep : step g r s l = StepR.fail) :
    scan g r s (l :: rest) loc = none := by
  simp only [scan, hstep]

theorem step_head_pool {s : PState} {l : Line} (hp : l.head? = some "pool:") :
    step g r s l = StepR.stop := by
  cases l with
  | nil => simp at hp
  | cons t0 ts =>
    simp only [List.head?_cons, Option.some_inj] at hp
    subst hp
    exact step_pool g r s ts

theorem step_stop_head {s : PState} {l : Line} (hstep : step g r s l = StepR.stop) :
    l.head? = some "pool:" := by
  cases l with
  | nil => exact StepR.noConfusion hstep
  | cons t0 ts =>
    by_cases hpool : t0 = "pool:"
    · simp [hpool]
    exfalso
    by_cases hid : t0 = "id:"
    · subst hid
      rcases ts with _ | ⟨v, ts'⟩
      · rw [step_id_lone] at hstep; exact StepR.noConfusion hstep
      · rw [step_id] at hstep; exact StepR.noConfusion hstep
    by_cases hstate : t0 = "state:"
    · subst hstate; rw [step_state] at hstep; exact StepR.noConfusion hstep
    by_cases hstatus : t0 = "status:"
    · subst hstatus; rw [step_status] at hstep; exact StepR.noConfusion hstep
    by_cases hact : t0 = "action:"
    · subst hact; rw [step_action] at hstep; exact StepR.noConfusion hstep
    by_cases hecho : t0 = s.ez.Name
    · rw [step_echo g r s t0 ts hpool hid hstate hstatus hact hecho] at hstep
      exact StepR.noConfusion hstep
    by_cases hcfg : t0 = "config:"
    · subst hcfg
      rw [step_config g r s ts (fun hh => hecho hh.symm)] at hstep
      exact StepR.noConfusion hstep
    have hk : NotKey t0 := ⟨hpool, hid, hstate, hstatus, hact, hcfg⟩
    by_cases hguard : (s.actionFound && !s.configFound) = true
    · obtain ⟨haf, hcf⟩ := Bool.and_eq_true_iff.mp hguard
      rw [Bool.not_eq_true'] at hcf
      rw [step_cont g r s t0 ts hk hecho haf hcf] at hstep
      exact StepR.noConfusion hstep
    have hguard' : (s.actionFound && !s.configFound) = false := Bool.eq_false_iff.mpr hguard
    rcases ts with _ | ⟨h2, ts'⟩
    · rw [step_struct_lone g r s t0 hk hecho hguard'] at hstep; exact StepR.noConfusion hstep
    by_cases hg : g (dashPrefix t0) = true
    · rw [step_grp g r s t0 h2 ts' hk hecho hguard' hg] at hstep
      exact StepR.noConfusion hstep
    have hg' : g (dashPrefix t0) = false := Bool.eq_false_iff.mpr hg
    rcases hcur : s.cur with _ | cg
    · rw [step_dev_none g r s t0 h2 ts' hk hecho hguard' hg' hcur] at hstep
      exact StepR.noConfusion hstep
    · rw [step_dev_some g r s t0 h2 ts' cg hk hecho hguard' hg' hcur] at hstep
      exact StepR.noConfusion hstep

theorem step_next_keep {s s' : PState} {l : Line}
    (hstep : step g r s l = StepR.next s') :
    s'.ez.Name = s.ez.Name ∧
    s'.ez.Vdevs = s.ez.Vdevs ∧
    (l.head? ≠ some "state:" → s'.ez.State = s.ez.State) ∧
    (s.ez.State ≠ "" → s'.ez.State = s.ez.State) ∧
    (l.head? ≠ some "action:" → s.actionFound = false →
      s'.ez.Action = s.ez.Action ∧ s'.actionFound = false) := by
  cases l with
  | nil =>
    rw [step_nil] at hstep
    injection hstep with h
    subst h
    exact ⟨rfl, rfl, fun _ => rfl, fun _ => rfl, fun _ haf => ⟨rfl, haf⟩⟩
  | cons t0 ts =>
    by_cases hpool : t0 = "pool:"
    · subst hpool; rw [step_pool] at hstep; exact StepR.noConfusion hstep
    by_cases hid : t0 = "id:"
    · subst hid
      rcases ts with _ | ⟨v, ts'⟩
      · rw [step_id_lone] at hstep; exact StepR.noConfusion hstep
      · rw [step_id] at hstep
        injection hstep with h
        subst h
        exact ⟨rfl, rfl, fun _ => rfl, fun _ => rfl, fun _ haf => ⟨rfl, haf⟩⟩
    by_cases hstate : t0 = "state:"
    · subst hstate
      rw [step_state] at hstep
      injection hstep with h
      subst h
      refine ⟨rfl, rfl, fun hh => ?_, fun hne => ?_, fun _ haf => ⟨rfl, haf⟩⟩
      · exact absurd (by simp) hh
      · simp [setString, hne]
    by_cases hstatus : t0 = "status:"
    · subst hstatus
      rw [step_status] at hstep
      injection hstep with h
      subst h
      exact ⟨rfl, rfl, fun _ => rfl, fun _ => rfl, fun _ haf => ⟨rfl, haf⟩⟩
    by_cases hact : t0 = "action:"
    · subst hact
      rw [step_action] at hstep
      injection hstep with h
      subst h
      refine ⟨rfl, rfl, fun _ => rfl, fun _ => rfl, fun hh _ => ?_⟩
      exact absurd (by simp) hh
    by_cases hecho : t0 = s.ez.Name
    · rw [step_echo g r s t0 ts hpool hid hstate hstatus hact hecho] at hstep
      injection hstep with h
      subst h
      exact ⟨rfl, rfl, fun _ => rfl, fun _ => rfl, fun _ haf => ⟨rfl, haf⟩⟩
    by_cases hcfg : t0 = "config:"
    · subst hcfg
      rw [step_config g r s ts (fun hh => hecho hh.symm)] at hstep
      injection hstep with h
      subst h
      exact ⟨rfl, rfl, fun _ => rfl, fun _ => rfl, fun _ haf => ⟨rfl, haf⟩⟩
    have hk : NotKey t0 := ⟨hpool, hid, hstate, hstatus, hact, hcfg⟩
    by_cases hguard : (s.actionFound && !s.configFound) = true
    · obtain ⟨haf, hcf⟩ := Bool.and_eq_true_iff.mp hguard
      rw [Bool.not_eq_true'] at hcf
      rw [step_cont g r s t0 ts hk hecho haf hcf] at hstep
      injection hstep with h
      subst h
      refine ⟨rfl, rfl, fun _ => rfl, fun _ => rfl, fun _ haf' => ?_⟩
      rw [haf'] at haf
      exact absurd haf (by simp)
    have hguard' : (s.actionFound && !s.configFound) = false := Bool.eq_false_iff.mpr hguard
    rcases ts with _ | ⟨h2, ts'⟩
    · rw [step_struct_lone g r s t0 hk hecho hguard'] at hstep
      exact StepR.noConfusion hstep
    by_cases hg : g (dashPrefix t0) = true
    · rw [step_grp g r s t0 h2 ts' hk hecho hguard' hg] at hstep
      injection hstep with h
      subst h
      exact ⟨rfl, rfl, fun _ => rfl, fun _ => rfl, fun _ haf => ⟨rfl, haf⟩⟩
    have hg' : g (dashPrefix t0) = false := Bool.eq_false_iff.mpr hg
    rcases hcur : s.cur with _ | cg
    · rw [step_dev_none g r s t0 h2 ts' hk hecho hguard' hg' hcur] at hstep
      injection hstep with h
      subst h
      exact ⟨rfl, rfl, fun _ => rfl, fun _ => rfl, fun _ haf => ⟨rfl, haf⟩⟩
    · rw [step_dev_some g r s t0 h2 ts' cg hk hecho hguard' hg' hcur] at hstep
      injection hstep with h
      subst h
      exact ⟨rfl, rfl, fun _ => rfl, fun _ => rfl, fun _ haf => ⟨rfl, haf⟩⟩

end ScanLemmas

section ScanInduction

variable (g : String → Bool) (r : String → String)

theorem scan_count : ∀ (lines : List Line) (s : PState) (loc : Nat)
    (z : ExportedZpool) (n : Nat),
    scan g r s lines loc = some (z, n) →
    n = loc + lines.findIdx (fun l => l.head? == some "pool:") := by
  intro lines
  induction lines with
  | nil =>
    intro s loc z n h
    simp only [scan, Option.some_inj, Prod.mk.injEq] at h
    rw [List.findIdx_nil, ← h.2]
    rfl
  | cons l rest ih =>
    intro s loc z n h
    cases hstep : step g r s l with
    | fail => rw [scan_fail g r rest loc hstep] at h; exact absurd h (by simp)
    | stop =>
      rw [scan_stop g r rest loc hstep] at h
      simp only [Option.some_inj, Prod.mk.injEq] at h
      have hp : (l.head? == some "pool:") = true := by
        simp [step_stop_head g r hstep]
      rw [List.findIdx_cons, hp, ← h.2]
      rfl
    | next s' =>
      rw [scan_next g r rest loc hstep] at h
      have hn := ih s' (loc + 1) z n h
      have hp : l.head? ≠ some "pool:" := by
        intro hh
        rw [step_head_pool g r hh] at hstep
        exact StepR.noConfusion hstep
      have hp' : (l.head? == some "pool:") = false := beq_eq_false_iff_ne.mpr hp
      rw [List.findIdx_cons, hp']
      simp only [Bool.cond_false]
      omega

theorem scan_State_keep : ∀ (lines : List Line) (s : PState) (loc : Nat)
    (z : ExportedZpool) (n : Nat),
    s.ez.State ≠ "" →
    scan g r s lines loc = some (z, n) → z.State = s.ez.State := by
  intro lines
  induction lines with
  | nil =>
    intro s loc z n hne h
    simp only [scan, Option.some_inj, Prod.mk.injEq] at h
    rw [← h.1]
    rfl
  | cons l rest ih =>
    intro s loc z n hne h
    cases hstep : step g r s l with
    | fail => rw [scan_fail g r rest loc hstep] at h; exact absurd h (by simp)
    | stop =>
      rw [scan_stop g r rest loc hstep] at h
      simp only [Option.some_inj, Prod.mk.injEq] at h
      rw [← h.1]
      rfl
    | next s' =>
      rw [scan_next g r rest loc hstep] at h
      have hkeep := (step_next_keep g r hstep).2.2.2.1 hne
      have := ih s' (loc + 1) z n (by rw [hkeep]; exact hne) h
      rw [this, hkeep]

theorem scan_Action_keep : ∀ (lines : List Line) (s : PState) (loc : Nat)
    (z : ExportedZpool) (n : Nat),
    s.actionFound = false →
    (∀ l ∈ lines, l.head? ≠ some "action:") →
    scan g r s lines loc = some (z, n) → z.Action = s.ez.Action := by
  intro lines
  induction lines with
  | nil =>
    intro s loc z n haf hla h
    simp only [scan, Option.some_inj, Prod.mk.injEq] at h
    rw [← h.1]
    rfl
  | cons l rest ih =>
    intro s loc z n haf hla h
    cases hstep : step g r s l with
    | fail => rw [scan_fail g r rest loc hstep] at h; exact absurd h (by simp)
    | stop =>
      rw [scan_stop g r rest loc hstep] at h
      simp only [Option.some_inj, Prod.mk.injEq] at h
      rw [← h.1]
      rfl
    | next s' =>
      rw [scan_next g r rest loc hstep] at h
      have hkeep := (step_next_keep g r hstep).2.2.2.2
        (hla l (List.mem_cons_self l rest)) haf
      have := ih s' (loc + 1) z n hkeep.2
        (fun x hx => hla x (List.mem_cons_of_mem l hx)) h
      rw [this, hkeep.1]

end ScanInduction

section PreDevSeg

variable (g : String → Bool) (r : String → String)

theorem scan_pre : ∀ (pre : List Line) (s : PState) (loc : Nat) (rest : List Line),
    NotKey s.ez.Name →
    (∀ l ∈ pre, preSafe s.ez.Name l = true) →
    s.actionFound = false → s.configFound = false →
    ∃ s', scan g r s (pre ++ rest) loc = scan g r s' rest (loc + pre.length) ∧
      s'.ez.Name = s.ez.Name ∧ s'.ez.Action = s.ez.Action ∧
      s'.actionFound = false ∧ s'.configFound = false ∧
      s'.closed = s.closed ∧ s'.cur = s.cur ∧ s'.ez.Vdevs = s.ez.Vdevs := by
  intro pre
  induction pre with
  | nil =>
    intro s loc rest hk hpre haf hcf
    exact ⟨s, by simp, rfl, rfl, haf, hcf, rfl, rfl, rfl⟩
  | cons l pre' ih =>
    intro s loc rest hk hpre haf hcf
    have hsafe := hpre l (List.mem_cons_self l pre')
    have hpre' : ∀ x ∈ pre', preSafe s.ez.Name x = true :=
      fun x hx => hpre x (List.mem_cons_of_mem l hx)
    have hlen : loc + 1 + pre'.length = loc + (l :: pre').length := by
      simp only [List.length_cons]
      omega
    rcases l with _ | ⟨t0, ts⟩
    · obtain ⟨s', hscan, hf⟩ := ih s (loc + 1) rest hk hpre' haf hcf
      refine ⟨s', ?_, hf⟩
      rw [List.cons_append, scan_next g r _ _ (step_nil g r s), hscan, hlen]
    · rcases ts with _ | ⟨t1, ts'⟩
      · simp only [preSafe, Bool.or_eq_true, beq_iff_eq] at hsafe
        rcases hsafe with (h | h) | h
        · subst h
          obtain ⟨s', hscan, hf⟩ :=
            ih { s with ez := { s.ez with State := setString s.ez.State (String.intercalate " " []) } }
              (loc + 1) rest hk hpre' haf hcf
          refine ⟨s', ?_, hf⟩
          rw [List.cons_append, scan_next g r _ _ (step_state g r s []), hscan, hlen]
        · subst h
          obtain ⟨s', hscan, hf⟩ :=
            ih { s with ez := { s.ez with Status := setString s.ez.Status (String.intercalate " " []) } }
              (loc + 1) rest hk hpre' haf hcf
          refine ⟨s', ?_, hf⟩
          rw [List.cons_append, scan_next g r _ _ (step_status g r s []), hscan, hlen]
        · obtain ⟨s', hscan, hf⟩ := ih s (loc + 1) rest hk hpre' haf hcf
          refine ⟨s', ?_, hf⟩
          rw [List.cons_append,
            scan_next g r _ _
              (step_echo g r s t0 [] (fun hh => hk.1 (h ▸ hh)) (fun hh => hk.2.1 (h ▸ hh))
                (fun hh => hk.2.2.1 (h ▸ hh)) (fun hh => hk.2.2.2.1 (h ▸ hh))
                (fun hh => hk.2.2.2.2.1 (h ▸ hh)) h),
            hscan, hlen]
      · simp only [preSafe, Bool.or_eq_true, beq_iff_eq] at hsafe
        rcases hsafe with ((h | h) | h) | h
        · subst h
          obtain ⟨s', hscan, hf⟩ :=
            ih { s with ez := { s.ez with Id := setString s.ez.Id t1 } }
              (loc + 1) rest hk hpre' haf hcf
          refine ⟨s', ?_, hf⟩
          rw [List.cons_append, scan_next g r _ _ (step_id g r s t1 ts'), hscan, hlen]
        · subst h
          obtain ⟨s', hscan, hf⟩ :=
            ih { s with ez :=
                { s.ez with State := setString s.ez.State (String.intercalate " " (t1 :: ts')) } }
              (loc + 1) rest hk hpre' haf hcf
          refine ⟨s', ?_, hf⟩
          rw [List.cons_append, scan_next g r _ _ (step_state g r s (t1 :: ts')), hscan, hlen]
        · subst h
          obtain ⟨s', hscan, hf⟩ :=
            ih { s with ez :=
                { s.ez with Status := setString s.ez.Status (String.intercalate " " (t1 :: ts')) } }
              (loc + 1) rest hk hpre' haf hcf
          refine ⟨s', ?_, hf⟩
          rw [List.cons_append, scan_next g r _ _ (step_status g r s (t1 :: ts')), hscan, hlen]
        · obtain ⟨s', hscan, hf⟩ := ih s (loc + 1) rest hk hpre' haf hcf
          refine ⟨s', ?_, hf⟩
          rw [List.cons_append,
            scan_next g r _ _
              (step_echo g r s t0 (t1 :: ts') (fun hh => hk.1 (h ▸ hh)) (fun hh => hk.2.1 (h ▸ hh))
                (fun hh => hk.2.2.1 (h ▸ hh)) (fun hh => hk.2.2.2.1 (h ▸ hh))
                (fun hh => hk.2.2.2.2.1 (h ▸ hh)) h),
            hscan, hlen]

theorem scan_devs : ∀ (ds : List Tok3) (s : PState) (cg : VdevGroup) (loc : Nat)
    (rest : List Line),
    (∀ d ∈ ds, DevTok g s.ez.Name d.1) →
    s.actionFound = false →
    s.cur = some cg →
    scan g r s (ds.map tokLine ++ rest) loc =
      scan g r { s with cur := some { cg with Devices := cg.Devices ++ ds.map (mkVdev r) } }
        rest (loc + ds.length) := by
  intro ds
  induction ds with
  | nil =>
    intro s cg loc rest _ _ hcur
    simp only [List.map_nil, List.nil_append, List.append_nil, List.length_nil, Nat.add_zero]
    rw [← hcur]
  | cons d ds' ih =>
    intro s cg loc rest hds haf hcur
    obtain ⟨t0, t1, tex⟩ := d
    obtain ⟨hk, hNm, hg⟩ := hds (t0, t1, tex) (List.mem_cons_self _ _)
    have hguard : (s.actionFound && !s.configFound) = false := by rw [haf]; rfl
    have hstep := step_dev_some g r s t0 t1 tex cg hk hNm hguard hg hcur
    simp only [List.map_cons, List.cons_append, tokLine]
    rw [scan_next g r _ _ hstep]
    rw [ih { s with cur := some { cg with Devices := cg.Devices ++ [⟨r t0, t1⟩] } }
      { cg with Devices := cg.Devices ++ [⟨r t0, t1⟩] } (loc + 1) rest
      (fun d hd => hds d (List.mem_cons_of_mem _ hd)) haf rfl]
    have hA : ({ s with cur := some { cg with
          Devices := (cg.Devices ++ [(⟨r t0, t1⟩ : Vdev)]) ++ ds'.map (mkVdev r) } } : PState) =
        { s with cur := some { cg with
          Devices := cg.Devices ++ ((t0, t1, tex) :: ds').map (mkVdev r) } } := by
      refine congrArg (fun dl => { s with cur := some { cg with Devices := dl } }) ?_
      simp [mkVdev]
    have hN : loc + 1 + ds'.length = loc + ((t0, t1, tex) :: ds').length := by
      simp only [List.length_cons]
      omega
    rw [hA, hN]
    rfl

theorem scan_segs : ∀ (segs : List Seg) (s : PState) (loc : Nat),
    (∀ sg ∈ segs, GrpTok g s.ez.Name sg.1.1 ∧ ∀ d ∈ sg.2, DevTok g s.ez.Name d.1) →
    s.actionFound = false →
    scan g r s (segsLines segs) loc =
      some ({ s.ez with Vdevs := s.ez.Vdevs ++ s.closed ++ s.cur.toList ++ segs.map (mkGroup r) },
        loc + (segsLines segs).length) := by
  intro segs
  induction segs with
  | nil =>
    intro s loc _ _
    simp [segsLines, scan, finishVdevs]
  | cons sg segs' ih =>
    intro s loc hsegs haf
    obtain ⟨⟨gt0, gt1, gtex⟩, ds⟩ := sg
    obtain ⟨⟨hk, hNm, hg⟩, hds⟩ := hsegs ((gt0, gt1, gtex), ds) (List.mem_cons_self _ _)
    have hguard : (s.actionFound && !s.configFound) = false := by rw [haf]; rfl
    have hstep := step_grp g r s gt0 gt1 gtex hk hNm hguard hg
    simp only [segsLines, segLines, tokLine, List.cons_append]
    rw [scan_next g r _ _ hstep]
    rw [scan_devs g r ds
      { s with closed := s.closed ++ s.cur.toList, cur := some ⟨⟨r gt0, gt1⟩, []⟩ }
      ⟨⟨r gt0, gt1⟩, []⟩ (loc + 1) (segsLines segs') hds haf rfl]
    have hIH := ih { s with closed := s.closed ++ s.cur.toList, cur := some ⟨⟨r gt0, gt1⟩, [] ++ List.map (mkVdev r) ds⟩ }
      (loc + 1 + ds.length) (fun x hx => hsegs x (List.mem_cons_of_mem _ hx)) haf
    refine Eq.trans hIH ?_
    refine congrArg some ?_
    simp only [Prod.mk.injEq]
    constructor
    · refine congrArg (fun vd => { s.ez with Vdevs := vd }) ?_
      simp [mkGroup, mkVdev, List.append_assoc]
    · simp only [List.length_cons, List.length_append, List.length_map]
      omega

theorem scan_stop_append : ∀ (body : List Line) (s : PState) (loc : Nat)
    (t : List String) (more : List Line),
    PoolFree body →
    scan g r s (body ++ ("pool:" :: t) :: more) loc = scan g r s body loc := by
  intro body
  induction body with
  | nil =>
    intro s loc t more _
    rw [List.nil_append, scan_stop g r more loc (step_pool g r s t)]
    rfl
  | cons l body' ih =>
    intro s loc t more hpf
    have hl : l.head? ≠ some "pool:" := hpf l (List.mem_cons_self _ _)
    cases hstep : step g r s l with
    | fail =>
      rw [List.cons_append, scan_fail g r _ loc hstep, scan_fail g r body' loc hstep]
    | stop => exact absurd (step_stop_head g r hstep) hl
    | next s' =>
      rw [List.cons_append, scan_next g r _ _ hstep, scan_next g r body' loc hstep,
        ih s' (loc + 1) t more (fun x hx => hpf x (List.mem_cons_of_mem _ hx))]

theorem findIdx_poolFree : ∀ (body : List Line), PoolFree body →
    body.findIdx (fun l => l.head? == some "pool:") = body.length := by
  intro body
  induction body with
  | nil => intro _; simp
  | cons l body' ih =>
    intro hpf
    have hfalse : (l.head? == some "pool:") = false :=
      beq_eq_false_iff_ne.mpr (hpf l (List.mem_cons_self _ _))
    rw [List.findIdx_cons, hfalse]
    simp only [Bool.cond_false, List.length_cons]
    rw [ih (fun x hx => hpf x (List.mem_cons_of_mem _ hx))]

theorem parseLines_stop_append (ez : ExportedZpool) (body : List Line)
    (t : List String) (more : List Line) (hpf : PoolFree body) :
    parseLines g r ez (body ++ ("pool:" :: t) :: more) = parseLines g r ez body :=
  scan_stop_append g r body ⟨ez, false, false, [], none⟩ 0 t more hpf

theorem parseLines_count (ez : ExportedZpool) (lines : List Line)
    (z : ExportedZpool) (n : Nat) (h : parseLines g r ez lines = some (z, n)) :
    n = lines.findIdx (fun l => l.head? == some "pool:") := by
  have := scan_count g r lines ⟨ez, false, false, [], none⟩ 0 z n h
  omega

theorem listDriver_marker (f : Nat) (nm : String) (ex : List String) (rest : List Line) :
    listDriver g r (f + 1) (("pool:" :: nm :: ex) :: rest) =
      match parseLines g r (ExportedZpool.fresh nm) rest with
      | none => none
      | some (z, k) =>
        match listDriver g r f (rest.drop k) with
        | none => none
        | some ps => some (z :: ps) := by
  simp [listDriver]

theorem listDriver_skip (f : Nat) (t0 : String) (ts : List String) (rest : List Line)
    (h : t0 ≠ "pool:") :
    listDriver g r (f + 1) ((t0 :: ts) :: rest) = listDriver g r f rest := by
  simp [listDriver, h]

theorem listDriver_blocks : ∀ (bs : List Block) (fuel : Nat),
    (blocksLines bs).length ≤ fuel →
    (∀ b ∈ bs, PoolFree b.2.2) →
    listDriver g r fuel (blocksLines bs) = recsOf g r bs := by
  intro bs
  induction bs with
  | nil => intro fuel _ _; cases fuel <;> rfl
  | cons b bs' ih =>
    intro fuel hfuel hpf
    obtain ⟨nm, ex, body⟩ := b
    cases fuel with
    | zero =>
      exfalso
      simp [blocksLines, blockLines] at hfuel
    | succ f =>
      have hpfb : PoolFree body := hpf (nm, ex, body) (List.mem_cons_self _ _)
      have hshape : blocksLines ((nm, ex, body) :: bs') =
          ("pool:" :: nm :: ex) :: (body ++ blocksLines bs') := rfl
      rw [hshape, listDriver_marker]
      have hpp : parseLines g r (ExportedZpool.fresh nm) (body ++ blocksLines bs') =
          parseLines g r (ExportedZpool.fresh nm) body := by
        cases bs' with
        | nil => simp [blocksLines]
        | cons b2 t2 =>
          obtain ⟨nm2, ex2, body2⟩ := b2
          exact parseLines_stop_append g r (ExportedZpool.fresh nm) body (nm2 :: ex2)
            (body2 ++ blocksLines t2) hpfb
      rw [hpp]
      cases hp : parseLines g r (ExportedZpool.fresh nm) body with
      | none => simp [recsOf, recOf, hp]
      | some p =>
        obtain ⟨z, k⟩ := p
        have hk : k = body.length := by
          have h1 := parseLines_count g r (ExportedZpool.fresh nm) body z k hp
          rw [findIdx_poolFree body hpfb] at h1
          exact h1
        have hdrop : (body ++ blocksLines bs').drop k = blocksLines bs' := by
          rw [hk]
          exact List.drop_left _ _
        have hfuel' : (blocksLines bs').length ≤ f := by
          rw [hshape] at hfuel
          simp only [List.length_cons, List.length_append] at hfuel
          omega
        simp only [hdrop]
        rw [ih f hfuel' (fun x hx => hpf x (List.mem_cons_of_mem _ hx))]
        simp [recsOf, recOf, hp]

theorem scan_state_first : ∀ (pre : List Line) (v1 : List String) (rest : List Line)
    (s : PState) (loc : Nat) (z : ExportedZpool) (n : Nat),
    s.ez.State = "" →
    (∀ l ∈ pre, l.head? ≠ some "state:" ∧ l.head? ≠ some "pool:") →
    String.intercalate " " v1 ≠ "" →
    scan g r s (pre ++ ("state:" :: v1) :: rest) loc = some (z, n) →
    z.State = String.intercalate " " v1 := by
  intro pre
  induction pre with
  | nil =>
    intro v1 rest s loc z n hst hpre hv h
    rw [List.nil_append, scan_next g r _ _ (step_state g r s v1)] at h
    have hset : ({ s with ez :=
        { s.ez with State := setString s.ez.State (String.intercalate " " v1) } } : PState).ez.State =
        String.intercalate " " v1 := by
      show setString s.ez.State (String.intercalate " " v1) = String.intercalate " " v1
      rw [hst]
      simp [setString]
    have hz := scan_State_keep g r rest _ (loc + 1) z n (by rw [hset]; exact hv) h
    rw [hz, hset]
  | cons l pre' ih =>
    intro v1 rest s loc z n hst hpre hv h
    obtain ⟨hls, hlp⟩ := hpre l (List.mem_cons_self _ _)
    cases hstep : step g r s l with
    | fail =>
      rw [List.cons_append, scan_fail g r _ _ hstep] at h
      exact absurd h (by simp)
    | stop => exact absurd (step_stop_head g r hstep) hlp
    | next s' =>
      rw [List.cons_append, scan_next g r _ _ hstep] at h
      have hst' : s'.ez.State = "" := by
        rw [(step_next_keep g r hstep).2.2.1 hls]
        exact hst
      exact ih v1 rest s' (loc + 1) z n hst'
        (fun x hx => hpre x (List.mem_cons_of_mem _ hx)) hv h

end PreDevSeg

namespace Legacy

section LegacyLemmas

variable (g : String → Bool) (s : LState)

theorem lstep_nil : step g s [] = LStepR.next s := rfl

theorem lstep_pool (ts : List String) : step g s ("pool:" :: ts) = LStepR.stop := by
  simp [step]

theorem lstep_id (v : String) (ts : List String) :
    step g s ("id:" :: v :: ts) =
      LStepR.next { s with ez := { s.ez with Id := setString s.ez.Id v } } := by
  simp [step]

theorem lstep_id_lone : step g s ["id:"] = LStepR.fail := by
  simp [step]

theorem lstep_state (ts : List String) :
    step g s ("state:" :: ts) =
      LStepR.next { s with ez := { s.ez with State := setString s.ez.State (String.intercalate " " ts) } } := by
  simp [step]

theorem lstep_status (ts : List String) :
    step g s ("status:" :: ts) =
      LStepR.next { s with ez := { s.ez with Status := setString s.ez.Status (String.intercalate " " ts) } } := by
  simp [step]

theorem lstep_action (ts : List String) :
    step g s ("action:" :: ts) =
      LStepR.next { s with
        ez := { s.ez with Action := setString s.ez.Action (String.intercalate " " ts) },
        actionFound := true } := by
  simp [step]

theorem lstep_echo (t0 : String) (ts : List String)
    (h1 : t0 ≠ "pool:") (h2 : t0 ≠ "id:") (h3 : t0 ≠ "state:") (h4 : t0 ≠ "status:")
    (h5 : t0 ≠ "action:") (heq : t0 = s.ez.Name) :
    step g s (t0 :: ts) = LStepR.next s := by
  rw [heq] at h1 h2 h3 h4 h5
  simp [step, heq, h1, h2, h3, h4, h5]

theorem lstep_cont (t0 : String) (ts : List String)
    (h1 : t0 ≠ "pool:") (h2 : t0 ≠ "id:") (h3 : t0 ≠ "state:") (h4 : t0 ≠ "status:")
    (h5 : t0 ≠ "action:") (hNm : t0 ≠ s.ez.Name) (haf : s.actionFound = true) :
    step g s (t0 :: ts) =
      LStepR.next { s with
        ez := { s.ez with Action := s.ez.Action ++ " " ++ String.intercalate " " (t0 :: ts) },
        actionFound := false } := by
  simp [step, h1, h2, h3, h4, h5, hNm, haf]

theorem lstep_grp (t0 h2t : String) (ts : List String)
    (h1 : t0 ≠ "pool:") (h2 : t0 ≠ "id:") (h3 : t0 ≠ "state:") (h4 : t0 ≠ "status:")
    (h5 : t0 ≠ "action:") (hNm : t0 ≠ s.ez.Name) (haf : s.actionFound = false)
    (hg : g (dashPrefix t0) = true) :
    step g s (t0 :: h2t :: ts) =
      LStepR.next { s with
        ez := { s.ez with Vdevs := s.ez.Vdevs ++ [⟨⟨t0, h2t⟩, []⟩] },
        cur := some ⟨⟨t0, h2t⟩, []⟩ } := by
  simp [step, h1, h2, h3, h4, h5, hNm, haf, hg]

theorem lstep_grp_lone (t0 : String)
    (h1 : t0 ≠ "pool:") (h2 : t0 ≠ "id:") (h3 : t0 ≠ "state:") (h4 : t0 ≠ "status:")
    (h5 : t0 ≠ "action:") (hNm : t0 ≠ s.ez.Name) (haf : s.actionFound = false)
    (hg : g (dashPrefix t0) = true) :
    step g s [t0] = LStepR.fail := by
  simp [step, h1, h2, h3, h4, h5, hNm, haf, hg]

theorem lstep_dev_some (t0 h2t : String) (ts : List String) (cg : VdevGroup)
    (h1 : t0 ≠ "pool:") (h2 : t0 ≠ "id:") (h3 : t0 ≠ "state:") (h4 : t0 ≠ "status:")
    (h5 : t0 ≠ "action:") (hNm : t0 ≠ s.ez.Name) (haf : s.actionFound = false)
    (hg : g (dashPrefix t0) = false) (hcur : s.cur = some cg) :
    step g s (t0 :: h2t :: ts) =
      LStepR.next { s with cur := some { cg with Devices := cg.Devices ++ [⟨t0, h2t⟩] } } := by
  simp [step, h1, h2, h3, h4, h5, hNm, haf, hg, hcur]

theorem lstep_dev_some_lone (t0 : String) (cg : VdevGroup)
    (h1 : t0 ≠ "pool:") (h2 : t0 ≠ "id:") (h3 : t0 ≠ "state:") (h4 : t0 ≠ "status:")
    (h5 : t0 ≠ "action:") (hNm : t0 ≠ s.ez.Name) (haf : s.actionFound = false)
    (hg : g (dashPrefix t0) = false) (hcur : s.cur = some cg) :
    step g s [t0] = LStepR.fail := by
  simp [step, h1, h2, h3, h4, h5, hNm, haf, hg, hcur]

theorem lstep_dev_none (t0 : String) (ts : List String)
    (h1 : t0 ≠ "pool:") (h2 : t0 ≠ "id:") (h3 : t0 ≠ "state:") (h4 : t0 ≠ "status:")
    (h5 : t0 ≠ "action:") (hNm : t0 ≠ s.ez.Name) (haf : s.actionFound = false)
    (hg : g (dashPrefix t0) = false) (hcur : s.cur = none) :
    step g s (t0 :: ts) = LStepR.next s := by
  cases ts with
  | nil => simp [step, h1, h2, h3, h4, h5, hNm, haf, hg, hcur]
  | cons t1 ts' => simp [step, h1, h2, h3, h4, h5, hNm, haf, hg, hcur]

end LegacyLemmas

theorem lstep_vdevs {g : String → Bool} {s s' : LState} {l : Line}
    (hstep : step g s l = LStepR.next s') :
    s'.ez.Vdevs = s.ez.Vdevs ∨ ∃ a b, s'.ez.Vdevs = s.ez.Vdevs ++ [⟨⟨a, b⟩, []⟩] := by
  cases l with
  | nil =>
    rw [lstep_nil] at hstep
    injection hstep with h
    subst h
    exact Or.inl rfl
  | cons t0 ts =>
    by_cases hpool : t0 = "pool:"
    · subst hpool; rw [lstep_pool] at hstep; exact LStepR.noConfusion hstep
    by_cases hid : t0 = "id:"
    · subst hid
      rcases ts with _ | ⟨v, ts'⟩
      · rw [lstep_id_lone] at hstep; exact LStepR.noConfusion hstep
      · rw [lstep_id] at hstep; injection hstep with h; subst h; exact Or.inl rfl
    by_cases hstate : t0 = "state:"
    · subst hstate; rw [lstep_state] at hstep; injection hstep with h; subst h; exact Or.inl rfl
    by_cases hstatus : t0 = "status:"
    · subst hstatus; rw [lstep_status] at hstep; injection hstep with h; subst h; exact Or.inl rfl
    by_cases hact : t0 = "action:"
    · subst hact; rw [lstep_action] at hstep; injection hstep with h; subst h; exact Or.inl rfl
    by_cases hecho : t0 = s.ez.Name
    · rw [lstep_echo g s t0 ts hpool hid hstate hstatus hact hecho] at hstep
      injection hstep with h; subst h; exact Or.inl rfl
    cases haf : s.actionFound with
    | true =>
      rw [lstep_cont g s t0 ts hpool hid hstate hstatus hact hecho haf] at hstep
      injection hstep with h; subst h; exact Or.inl rfl
    | false =>
      by_cases hg : g (dashPrefix t0) = true
      · rcases ts with _ | ⟨h2t, ts'⟩
        · rw [lstep_grp_lone g s t0 hpool hid hstate hstatus hact hecho haf hg] at hstep
          exact LStepR.noConfusion hstep
        · rw [lstep_grp g s t0 h2t ts' hpool hid hstate hstatus hact hecho haf hg] at hstep
          injection hstep with h
          subst h
          exact Or.inr ⟨t0, h2t, rfl⟩
      have hg' : g (dashPrefix t0) = false := Bool.eq_false_iff.mpr hg
      rcases hcur : s.cur with _ | cg
      · rw [lstep_dev_none g s t0 ts hpool hid hstate hstatus hact hecho haf hg' hcur] at hstep
        injection hstep with h; subst h; exact Or.inl rfl
      · rcases ts with _ | ⟨h2t, ts'⟩
        · rw [lstep_dev_some_lone g s t0 cg hpool hid hstate hstatus hact hecho haf hg' hcur] at hstep
          exact LStepR.noConfusion hstep
        · rw [lstep_dev_some g s t0 h2t ts' cg hpool hid hstate hstatus hact hecho haf hg' hcur] at hstep
          injection hstep with h; subst h; exact Or.inl rfl

theorem lscan_next {g : String → Bool} {s s' : LState} {l : Line} (rest : List Line) (loc : Nat)
    (hstep : step g s l = LStepR.next s') :
    scan g s (l :: rest) loc = scan g s' rest (loc + 1) := by
  simp only [scan, hstep]

theorem lscan_stop {g : String → Bool} {s : LState} {l : Line} (rest : List Line) (loc : Nat)
    (hstep : step g s l = LStepR.stop) :
    scan g s (l :: rest) loc = some (s.ez, loc) := by
  simp only [scan, hstep]

theorem lscan_fail {g : String → Bool} {s : LState} {l : Line} (rest : List Line) (loc : Nat)
    (hstep : step g s l = LStepR.fail) :
    scan g s (l :: rest) loc = none := by
  simp only [scan, hstep]

theorem lscan_groups_empty {g : String → Bool} : ∀ (lines : List Line) (s : LState)
    (loc : Nat) (z : ExportedZpool) (n : Nat),
    (∀ vg ∈ s.ez.Vdevs, vg.Devices = []) →
    scan g s lines loc = some (z, n) →
    ∀ vg ∈ z.Vdevs, vg.Devices = [] := by
  intro lines
  induction lines with
  | nil =>
    intro s loc z n hinv h
    simp only [scan, Option.some_inj, Prod.mk.injEq] at h
    rw [← h.1]
    exact hinv
  | cons l rest ih =>
    intro s loc z n hinv h
    cases hstep : step g s l with
    | fail => rw [lscan_fail rest loc hstep] at h; exact absurd h (by simp)
    | stop =>
      rw [lscan_stop rest loc hstep] at h
      simp only [Option.some_inj, Prod.mk.injEq] at h
      rw [← h.1]
      exact hinv
    | next s' =>
      rw [lscan_next rest loc hstep] at h
      refine ih s' (loc + 1) z n ?_ h
      rcases lstep_vdevs hstep with hsame | ⟨a, b, happ⟩
      · rw [hsame]; exact hinv
      · rw [happ]
        intro vg hvg
        rcases List.mem_append.mp hvg with hm | hm
        · exact hinv vg hm
        · rcases List.mem_singleton.mp hm with rfl
          rfl

end Legacy

/-- Claim C1 (amended): whenever the inner block scanner completes without an
out-of-range token access, the returned consumed-line count equals the
0-based index, relative to the scan start, of the first line whose first
token is "pool:", or the total number of lines when no such line exists
(blank lines included).  The original claim quantified over every
tokenized-line sequence; the scanner panics on some sequences (see the
counterexample), so completion is a necessary hypothesis. -/
theorem C1_consumed_count (g : String → Bool) (r : String → String)
    (ez : ExportedZpool) (lines : List Line) (z : ExportedZpool) (n : Nat)
    (h : parseLines g r ez lines = some (z, n)) :
    n = lines.findIdx (fun l => l.head? == some "pool:") :=
  parseLines_count g r ez lines z n h

/-- Claim C1 witness: on a concrete two-line input whose second line is the
block-start marker, the scanner completes and the count equals the marker's
index, 1. -/
theorem C1_consumed_count_witness :
    (parseLines IsVdevGroup (fun t => t) (ExportedZpool.fresh "t")
        [["state:", "ONLINE"], ["pool:", "u"]]).map Prod.snd =
      some ([["state:", "ONLINE"], ["pool:", "u"]].findIdx fun l => l.head? == some "pool:") := by
  have h : parseLines IsVdevGroup (fun t => t) (ExportedZpool.fresh "t")
      [["state:", "ONLINE"], ["pool:", "u"]] =
      some (⟨"t", "", "ONLINE", "", "", []⟩, 1) := by rfl
  rw [h]
  exact congrArg some (C1_consumed_count IsVdevGroup (fun t => t) (ExportedZpool.fresh "t")
    [["state:", "ONLINE"], ["pool:", "u"]] ⟨"t", "", "ONLINE", "", "", []⟩ 1 h)

/-- Claim C1 counterexample: the input consisting of the single one-token
structural line ["sda"] contains no "pool:" line, so the claim as stated
demands a returned count of 1 (the total number of lines); the code instead
indexes the missing second token (the health column) and panics, returning
no count at all. -/
theorem C1_counterexample :
    parseLines IsVdevGroup (fun t => t) (ExportedZpool.fresh "t") [["sda"]] = none := by
  rfl

/-- Claim C4 (code bug): an input whose lines are all blank satisfies the
claim's hypothesis (no line has "pool:" as its first token, in both
invocations), yet the driver loop indexes the first token of each line
unconditionally (out[i][0], src/unnamed/part_000 line 235) and panics on the
blank line instead of returning an empty collection. -/
theorem C4_blank_line_panics :
    ListExportedZpools IsVdevGroup (fun t => t)
      (fun _ => (Except.ok [[]] : Except String (List Line))) = none := by
  rfl

/-- Claim C5: Import builds the argument list ["import", flags, identifier]
with flags "-N", suffixed with "f" exactly when tryForce and then with "D"
exactly when the state contains "DESTROYED" as a substring; in particular a
record with state "ONLINE (DESTROYED)" and tryForce true yields
["import", "-NfD", identifier]. -/
theorem C5_import_flags :
    (∀ (ez : ExportedZpool) (tryForce : Bool),
        ez.importArgs tryForce =
          ["import",
            "-N" ++ (if tryForce then "f" else "") ++
              (if goContains ez.State "DESTROYED" then "D" else ""),
            ez.Id]) ∧
    ExportedZpool.importArgs ⟨"tank", "7", "ONLINE (DESTROYED)", "", "", []⟩ true =
      ["import", "-NfD", "7"] := by
  constructor
  · intro ez tf
    cases tf <;> by_cases hD : goContains ez.State "DESTROYED" = true <;>
      simp [ExportedZpool.importArgs, hD]
  · rfl

/-- Claim C6 (amended): ListExportedZpools calls the Command Runner only at
the argument lists ["import"] and ["import", "-D"] (part 1: its result
depends on the runner only through those two calls); an error of the first
invocation is returned verbatim (part 2); an error of the second invocation
is returned verbatim provided parsing of the first output completed without
a panic (part 3) — without that proviso the call crashes first, see the
counterexample. -/
theorem C6_two_invocations {ε : Type} (g : String → Bool) (r : String → String) :
    (∀ run run' : List String → Except ε (List Line),
        run ["import"] = run' ["import"] →
        run ["import", "-D"] = run' ["import", "-D"] →
        ListExportedZpools g r run = ListExportedZpools g r run') ∧
    (∀ (run : List String → Except ε (List Line)) (e : ε),
        run ["import"] = Except.error e →
        ListExportedZpools g r run = some (Except.error e)) ∧
    (∀ (run : List String → Except ε (List Line)) (out1 : List Line)
        (p1 : List ExportedZpool) (e : ε),
        run ["import"] = Except.ok out1 →
        listDriver g r out1.length out1 = some p1 →
        run ["import", "-D"] = Except.error e →
        ListExportedZpools g r run = some (Except.error e)) := by
  refine ⟨?_, ?_, ?_⟩
  · intro run run' e1 e2
    unfold ListExportedZpools
    rw [e1, e2]
  · intro run e h
    unfold ListExportedZpools
    rw [h]
  · intro run out1 p1 e h1 hd h2
    unfold ListExportedZpools
    rw [h1]
    simp only [hd, h2]

/-- Claim C6 witness: with a runner that answers ["import"] with one
parseable junk line and errors on anything else, the second invocation's
error "boom" is returned verbatim. -/
theorem C6_two_invocations_witness :
    ListExportedZpools IsVdevGroup (fun t => t)
        (fun a => if a = ["import"] then (Except.ok [["no", "pools"]] : Except String (List Line))
          else Except.error "boom") =
      some (Except.error "boom") :=
  (C6_two_invocations IsVdevGroup (fun t => t)).2.2 _ [["no", "pools"]] [] "boom" rfl rfl rfl

/-- Claim C6 counterexample: the first invocation succeeds with a single
blank line and the second invocation errors; the claim as stated says the
error is returned, but the driver panics on the blank line before the
second invocation ever happens, so nothing is returned. -/
theorem C6_counterexample :
    ListExportedZpools IsVdevGroup (fun t => t)
        (fun a => if a = ["import"] then (Except.ok [[]] : Except String (List Line))
          else Except.error "boom") = none := by
  rfl

/-- Claim C7 (amended): header-field assignment is first-non-empty-write
wins: if the first state: line of a block carries a non-empty value, the
record's final state equals that value, and every later state: line is
ignored.  The original first-write-wins claim fails when the first state:
line has an empty value tail, because the setter treats the empty string as
unset and a later duplicate then claims the field (see the
counterexample). -/
theorem C7_first_state_wins (g : String → Bool) (r : String → String) (nm : String)
    (pre : List Line) (v1 : List String) (rest : List Line)
    (z : ExportedZpool) (n : Nat)
    (hpre : ∀ l ∈ pre, l.head? ≠ some "state:" ∧ l.head? ≠ some "pool:")
    (hv : String.intercalate " " v1 ≠ "")
    (h : parseLines g r (ExportedZpool.fresh nm) (pre ++ ("state:" :: v1) :: rest) = some (z, n)) :
    z.State = String.intercalate " " v1 :=
  scan_state_first g r pre v1 rest ⟨ExportedZpool.fresh nm, false, false, [], none⟩ 0 z n
    rfl hpre hv h

/-- Claim C7 witness: a block with an id: line, a first state: line "ONLINE"
and a duplicate state: line "DEGRADED" ends with state "ONLINE". -/
theorem C7_first_state_wins_witness :
    (parseLines IsVdevGroup (fun t => t) (ExportedZpool.fresh "t")
        [["id:", "1"], ["state:", "ONLINE"], ["state:", "DEGRADED"]]).map
      (fun p => p.1.State) = some "ONLINE" := by
  have h : parseLines IsVdevGroup (fun t => t) (ExportedZpool.fresh "t")
      [["id:", "1"], ["state:", "ONLINE"], ["state:", "DEGRADED"]] =
      some (⟨"t", "1", "ONLINE", "", "", []⟩, 3) := by rfl
  rw [h]
  exact congrArg some (C7_first_state_wins IsVdevGroup (fun t => t) "t" [["id:", "1"]]
    ["ONLINE"] [["state:", "DEGRADED"]] ⟨"t", "1", "ONLINE", "", "", []⟩ 3
    (by decide) (by decide) h)

/-- Claim C7 counterexample: with a first state: line carrying no value and
a second one carrying "FOO", the final state is "FOO", not the first line's
(empty) value — the later duplicate is not ignored. -/
theorem C7_counterexample :
    (parseLines IsVdevGroup (fun t => t) (ExportedZpool.fresh "t")
        [["state:"], ["state:", "FOO"]]).map (fun p => p.1.State) = some "FOO" ∧
    ("FOO" : String) ≠ String.intercalate " " [] := by
  exact ⟨rfl, by decide⟩

/-- Claim C8 (code bug): a lone status: header key is absorbed with the
field left unset, as the claim says; but a lone id: key makes the scanner
index the missing value token (line[1], src/unnamed/part_000 line 176) and
panic instead of completing. -/
theorem C8_lone_header_key :
    parseLines IsVdevGroup (fun t => t) (ExportedZpool.fresh "tank") [["status:"]] =
      some (ExportedZpool.fresh "tank", 1) ∧
    parseLines IsVdevGroup (fun t => t) (ExportedZpool.fresh "tank") [["id:"]] = none := by
  exact ⟨rfl, rfl⟩

/-- Claim C10: in the superseded parser variant of src/zpool.go, groups are
appended to the record's Vdevs by value with an empty device list, and
device lines mutate only the local current-group copy; hence every group in
the returned record has an empty device list, whatever the input. -/
theorem C10_legacy_groups_empty (g : String → Bool) (ez : ExportedZpool)
    (lines : List Line) (z : ExportedZpool) (n : Nat)
    (hinit : ∀ vg ∈ ez.Vdevs, vg.Devices = [])
    (h : Legacy.parseLines g ez lines = some (z, n)) :
    ∀ vg ∈ z.Vdevs, vg.Devices = [] :=
  Legacy.lscan_groups_empty lines ⟨ez, false, none⟩ 0 z n hinit h

/-- Claim C10 witness: the superseded parser on a mirror group followed by a
device line returns a record whose single group has an empty device list —
the parsed device is lost. -/
theorem C10_legacy_groups_empty_witness :
    (Legacy.parseLines IsVdevGroup (ExportedZpool.fresh "t")
        [["mirror-0", "ONLINE"], ["sda", "ONLINE"]]).map
      (fun p => p.1.Vdevs.all fun vg => vg.Devices.isEmpty) = some true := by
  have h : Legacy.parseLines IsVdevGroup (ExportedZpool.fresh "t")
      [["mirror-0", "ONLINE"], ["sda", "ONLINE"]] =
      some (⟨"t", "", "", "", "", [⟨⟨"mirror-0", "ONLINE"⟩, []⟩]⟩, 2) := by rfl
  have h2 := C10_legacy_groups_empty IsVdevGroup (ExportedZpool.fresh "t")
    [["mirror-0", "ONLINE"], ["sda", "ONLINE"]]
    ⟨"t", "", "", "", "", [⟨⟨"mirror-0", "ONLINE"⟩, []⟩]⟩ 2 (by simp [ExportedZpool.fresh]) h
  rw [h]
  refine congrArg some (List.all_eq_true.mpr ?_)
  intro vg hvg
  rw [List.isEmpty_iff]
  exact h2 vg hvg

/-- Claim C2 (amended): in a block consisting of harmless non-structural
lines, then an action: line, then one plain free-text line, then any lines
with no further action: key, the record's final Action value is the action:
line's value tokens joined by single spaces, a single space, and the
free-text line's tokens joined by single spaces; the continuation flag is
disarmed after that one line, so no later line extends the value.  Amended
from the original claim: the free-text line must not be the "config:"
section marker (and no config: line may precede it), because the scanner's
continuation guard is cancelled by config: — see the counterexample. -/
theorem C2_action_continuation (g : String → Bool) (r : String → String) (nm : String)
    (pre : List Line) (ts : List String) (t0 : String) (fs : List String)
    (post : List Line) (z : ExportedZpool) (n : Nat)
    (hnm : NotKey nm)
    (hpre : ∀ l ∈ pre, preSafe nm l = true)
    (ht0 : NotKey t0) (htnm : t0 ≠ nm)
    (hpost : ∀ l ∈ post, l.head? ≠ some "action:")
    (h : parseLines g r (ExportedZpool.fresh nm)
      (pre ++ ("action:" :: ts) :: (t0 :: fs) :: post) = some (z, n)) :
    z.Action = String.intercalate " " ts ++ " " ++ String.intercalate " " (t0 :: fs) := by
  unfold parseLines at h
  obtain ⟨s', hscan, hName, hAction, haf, hcf, _, _, _⟩ :=
    scan_pre g r pre ⟨ExportedZpool.fresh nm, false, false, [], none⟩ 0
      (("action:" :: ts) :: (t0 :: fs) :: post) hnm hpre rfl rfl
  rw [hscan] at h
  rw [scan_next g r _ _ (step_action g r s' ts)] at h
  have hstep2 := step_cont g r { s' with ez := { s'.ez with Action := setString s'.ez.Action (String.intercalate " " ts) }, actionFound := true } t0 fs ht0 (fun hh => htnm (hh.trans hName)) rfl hcf
  rw [scan_next g r _ _ hstep2] at h
  have hfin := scan_Action_keep g r post _ _ z n rfl hpost h
  rw [hfin]
  have hA0 : s'.ez.Action = "" := hAction
  show setString s'.ez.Action (String.intercalate " " ts) ++ " " ++
      String.intercalate " " (t0 :: fs) = _
  rw [hA0]
  simp [setString]

/-- Claim C2 witness: a block with a state: line, an action: line "fix it",
the free-text line "soon please" and a trailing device line yields the
action value "fix it soon please". -/
theorem C2_action_continuation_witness :
    (parseLines IsVdevGroup (fun t => t) (ExportedZpool.fresh "tank")
        [["state:", "ONLINE"], ["action:", "fix", "it"], ["soon", "please"],
          ["later", "text"]]).map (fun p => p.1.Action) = some "fix it soon please" := by
  have h : parseLines IsVdevGroup (fun t => t) (ExportedZpool.fresh "tank")
      [["state:", "ONLINE"], ["action:", "fix", "it"], ["soon", "please"], ["later", "text"]] =
      some (⟨"tank", "", "ONLINE", "", "fix it soon please",
        [⟨⟨"fileordisk", ""⟩, [⟨"later", "text"⟩]⟩]⟩, 4) := by rfl
  rw [h]
  exact congrArg some (C2_action_continuation IsVdevGroup (fun t => t) "tank"
    [["state:", "ONLINE"]] ["fix", "it"] "soon" ["please"] [["later", "text"]]
    ⟨"tank", "", "ONLINE", "", "fix it soon please", [⟨⟨"fileordisk", ""⟩, [⟨"later", "text"⟩]⟩]⟩ 4
    (by decide) (by decide) (by decide) (by decide) (by decide) h)

/-- Claim C2 counterexample: by the claim's classification, "config:" is a
plain free-text line (it is not one of the recognized header keys and not
the pool-name echo, and no structural line precedes it), so the claim
predicts the action value "a config:"; the code treats config: as a section
marker and leaves the action value at "a". -/
theorem C2_counterexample :
    (parseLines IsVdevGroup (fun t => t) (ExportedZpool.fresh "t")
        [["action:", "a"], ["config:"]]).map (fun p => p.1.Action) = some "a" ∧
    ("a" : String) ≠ "a" ++ " " ++ String.intercalate " " ["config:"] := by
  exact ⟨rfl, by decide⟩

/-- Claim C3 (amended): in a block made of harmless non-structural lines,
then bare device lines, then group segments (each a group-header line
followed by its device lines), every device line after a group-header line
and before the next one is appended to that group's device list in input
order, and the bare device lines preceding any group header are collected
into exactly one synthetic "fileordisk" group, created lazily on the first
such line.  Amended from the original claim: the code classifies a
group-header line by the portion of its first token before the FIRST dash
(Go strings.Split(token, "-")[0]), not by stripping a trailing "-digits"
suffix — the two agree on tokens like raidz1-0 but not on tokens like
mirror-abc (see the counterexample); structural lines must carry at least
two tokens and the preceding lines must not arm the action continuation,
otherwise the scanner panics or absorbs the first structural line as action
text. -/
theorem C3_device_grouping (g : String → Bool) (r : String → String) (nm : String)
    (pre : List Line) (ds : List Tok3) (segs : List Seg)
    (hnm : NotKey nm)
    (hpre : ∀ l ∈ pre, preSafe nm l = true)
    (hds : ∀ d ∈ ds, DevTok g nm d.1)
    (hsegs : ∀ sg ∈ segs, GrpTok g nm sg.1.1 ∧ ∀ d ∈ sg.2, DevTok g nm d.1) :
    (parseLines g r (ExportedZpool.fresh nm)
        (pre ++ (ds.map tokLine ++ segsLines segs))).map (fun p => p.1.Vdevs) =
      some ((if ds.isEmpty then [] else [⟨⟨"fileordisk", ""⟩, ds.map (mkVdev r)⟩]) ++
        segs.map (mkGroup r)) := by
  unfold parseLines
  obtain ⟨s', hscan, hName, hAction, haf, hcf, hclosed, hcur, hvdevs⟩ :=
    scan_pre g r pre ⟨ExportedZpool.fresh nm, false, false, [], none⟩ 0
      (ds.map tokLine ++ segsLines segs) hnm hpre rfl rfl
  rw [hscan]
  have hName' : s'.ez.Name = nm := hName
  have hvdevs' : s'.ez.Vdevs = [] := hvdevs
  have hclosed' : s'.closed = [] := hclosed
  have hcur' : s'.cur = none := hcur
  cases ds with
  | nil =>
    rw [List.map_nil, List.nil_append]
    rw [scan_segs g r segs s' (0 + pre.length) (fun sg hsg => hName' ▸ hsegs sg hsg) haf]
    simp [hvdevs', hclosed', hcur']
  | cons d ds' =>
    obtain ⟨t0, t1, tex⟩ := d
    obtain ⟨hk, hNm0, hg⟩ := hds (t0, t1, tex) (List.mem_cons_self _ _)
    have hguard : (s'.actionFound && !s'.configFound) = false := by rw [haf]; rfl
    have hstep := step_dev_none g r s' t0 t1 tex hk (fun hh => hNm0 (hh.trans hName'))
      hguard hg hcur'
    have hone := scan_next g r (ds'.map tokLine ++ segsLines segs) (0 + pre.length) hstep
    have htwo := scan_devs g r ds' { s' with cur := some ⟨⟨"fileordisk", ""⟩, [⟨r t0, t1⟩]⟩ } ⟨⟨"fileordisk", ""⟩, [⟨r t0, t1⟩]⟩ (0 + pre.length + 1) (segsLines segs) (fun x hx => hName' ▸ hds x (List.mem_cons_of_mem _ hx)) haf rfl
    have hthree := scan_segs g r segs { s' with cur := some ⟨⟨"fileordisk", ""⟩, [⟨r t0, t1⟩] ++ ds'.map (mkVdev r)⟩ } (0 + pre.length + 1 + ds'.length) (fun sg hsg => hName' ▸ hsegs sg hsg) haf
    have hall := (hone.trans htwo).trans hthree
    rw [show ((t0, t1, tex) :: ds').map tokLine ++ segsLines segs =
      (t0 :: t1 :: tex) :: (ds'.map tokLine ++ segsLines segs) from rfl]
    rw [hall]
    simp [hvdevs', hclosed', mkVdev, mkGroup]

/-- Claim C3 witness: a block with an id: line, a bare device sda, then a
mirror-0 group with devices sdb and sdc, parses into the synthetic
fileordisk group holding sda followed by the mirror-0 group holding sdb
and sdc, in input order. -/
theorem C3_device_grouping_witness :
    (parseLines IsVdevGroup (fun t => t) (ExportedZpool.fresh "tank")
        [["id:", "9"], ["sda", "ONLINE"], ["mirror-0", "ONLINE"], ["sdb", "ONLINE"],
          ["sdc", "ONLINE"]]).map (fun p => p.1.Vdevs) =
      some [⟨⟨"fileordisk", ""⟩, [⟨"sda", "ONLINE"⟩]⟩,
        ⟨⟨"mirror-0", "ONLINE"⟩, [⟨"sdb", "ONLINE"⟩, ⟨"sdc", "ONLINE"⟩]⟩] := by
  have h := C3_device_grouping IsVdevGroup (fun t => t) "tank" [["id:", "9"]]
    [("sda", "ONLINE", [])]
    [(("mirror-0", "ONLINE", []), [("sdb", "ONLINE", []), ("sdc", "ONLINE", [])])]
    (by decide) (by decide) (by decide) (by decide)
  simpa [tokLine, segsLines, segLines, mkVdev, mkGroup] using h

/-- Claim C3 counterexample: with the recognized group kinds being exactly
the set containing "mirror", the token "mirror-abc" carries no trailing
"-digits" suffix, so under the claim's classification both lines are bare
device lines and should collect into one synthetic group with two devices;
the code splits at the first dash, recognizes "mirror", and opens a group
named mirror-abc holding the one device sda. -/
theorem C3_counterexample :
    (parseLines (fun t => t == "mirror") (fun t => t) (ExportedZpool.fresh "t")
        [["mirror-abc", "ONLINE"], ["sda", "ONLINE"]]).map (fun p => p.1.Vdevs) =
      some [⟨⟨"mirror-abc", "ONLINE"⟩, [⟨"sda", "ONLINE"⟩]⟩] ∧
    ([⟨⟨"mirror-abc", "ONLINE"⟩, [⟨"sda", "ONLINE"⟩]⟩] : List VdevGroup) ≠
      [⟨⟨"fileordisk", ""⟩, [⟨"mirror-abc", "ONLINE"⟩, ⟨"sda", "ONLINE"⟩]⟩] := by
  exact ⟨rfl, by decide⟩

/-- Claim C9: when both report invocations return back-to-back pool blocks
(each a "pool:" marker line followed by a marker-free body) and every block
parses, ListExportedZpools returns exactly one record per block, in the
blocks' input order (first invocation's blocks, then the second's), and
each record is a function of its own block alone (recsOf parses each body
from a fresh record named by its own marker line). -/
theorem C9_one_record_per_block {ε : Type} (g : String → Bool) (r : String → String)
    (run : List String → Except ε (List Line)) (bs1 bs2 : List Block)
    (p1 p2 : List ExportedZpool)
    (h1 : run ["import"] = Except.ok (blocksLines bs1))
    (h2 : run ["import", "-D"] = Except.ok (blocksLines bs2))
    (hpf1 : ∀ b ∈ bs1, PoolFree b.2.2) (hpf2 : ∀ b ∈ bs2, PoolFree b.2.2)
    (hr1 : recsOf g r bs1 = some p1) (hr2 : recsOf g r bs2 = some p2) :
    ListExportedZpools g r run = some (Except.ok (p1 ++ p2)) := by
  unfold ListExportedZpools
  rw [h1]
  simp only [listDriver_blocks g r bs1 (blocksLines bs1).length (le_refl _) hpf1, hr1, h2,
    listDriver_blocks g r bs2 (blocksLines bs2).length (le_refl _) hpf2, hr2]

/-- Claim C9 witness: two back-to-back blocks in the first invocation's
report and an empty second report yield the two records in input order with
independently scoped fields. -/
theorem C9_one_record_per_block_witness :
    ListExportedZpools IsVdevGroup (fun t => t)
        (fun a => if a = ["import"] then
          (Except.ok [["pool:", "t1"], ["id:", "1"], ["pool:", "t2"], ["id:", "2"]] :
            Except String (List Line))
          else Except.ok []) =
      some (Except.ok [⟨"t1", "1", "", "", "", []⟩, ⟨"t2", "2", "", "", "", []⟩]) := by
  refine C9_one_record_per_block IsVdevGroup (fun t => t) _
    [("t1", [], [["id:", "1"]]), ("t2", [], [["id:", "2"]])] []
    [⟨"t1", "1", "", "", "", []⟩, ⟨"t2", "2", "", "", "", []⟩] [] rfl rfl
    (by decide) (by decide) rfl rfl
